import Mathlib

/-!
Verification of `music21/braille/basic.py` (braille music transcription engine)
against its natural-language specification.

Braille strings are modelled as `List Char` over the Unicode braille block
(U+2800 .. U+283F); a braille cell is the 6-bit dot pattern `Fin 64`
(bit i = dot i+1, following the Unicode braille encoding).  Python
exceptions that escape a function are modelled with `Except PyErr`;
exceptions that the source catches are compiled away into the embedding.

The lookup tables live in `music21/braille/lookup.py`, which is not part of
the sources under verification; every definition modelling one of them is
marked `Modelled from the spec:` and anchored, where possible, to the
doctest outputs that appear verbatim in `basic.py`.
-/

namespace M21

/-- Python exceptions that can escape the embedded functions. -/
inductive PyErr where
  | keyError : PyErr
  | indexError : PyErr
  | brailleBasicException : PyErr
deriving DecidableEq, Repr

/-- A braille string: a list of characters (braille cells plus `'\n'`). -/
abbrev BStr := List Char

/-- The Unicode character of a braille cell (U+2800 + dot pattern). -/
def cellChar (v : Fin 64) : Char := Char.ofNat (0x2800 + v.val)

/-- Whether a character lies in the 64-cell braille block. -/
def isCellChar (c : Char) : Bool := 0x2800 ≤ c.toNat && c.toNat < 0x2840

/-- The dot pattern of a braille-block character. -/
def cellVal (c : Char) : Nat := c.toNat - 0x2800

/-- Modelled from the spec: the braille-cell → ASCII lookup table
(`lookup.ascii_chars`, not in src).  The spec makes the 64-pattern ↔ ASCII
mapping a bijection with a canonical (upper) case on encode; this is the
standard Braille ASCII table referenced by the docstring of
`brailleUnicodeToBrailleAscii`, indexed by dot pattern.  The doctests in
`basic.py` pin several entries (cell 0 ↦ `' '`, `⠩` ↦ `'%'`, `⠐` ↦ `'"'`,
`⠙` ↦ `'D'`, `⠣` ↦ `'<'`, `⠋` ↦ `'F'`). -/
def brailleAsciiTable : List Char :=
  [' ', 'A', '1', 'B', '\'', 'K', '2', 'L', '@', 'C', 'I', 'F', '/', 'M', 'S', 'P',
   '"', 'E', '3', 'H', '9', 'O', '6', 'R', '^', 'D', 'J', 'G', '>', 'N', 'T', 'Q',
   ',', '*', '5', '<', '-', 'U', '8', 'V', '.', '%', '[', '$', '+', 'X', '!', '&',
   ';', ':', '4', '\\', '0', 'Z', '7', '(', '_', '?', 'W', ']', '#', 'Y', ')', '=']

/-- `lookup.ascii_chars` as a partial map on characters: defined exactly on
the 64 braille-block characters. -/
def ascii_chars (c : Char) : Option Char :=
  if isCellChar c then some (brailleAsciiTable.getD (cellVal c) ' ') else none

/-- Python's `str.upper` restricted to single ASCII characters. -/
def pyUpper (c : Char) : Char :=
  if 'a' ≤ c && c ≤ 'z' then Char.ofNat (c.toNat - 32) else c

/-- The inverted table built by `brailleAsciiToBrailleUnicode`
(`braille_chars[ascii_chars[key]] = key`). -/
def braille_chars (a : Char) : Option Char :=
  (List.range 64).findSome? fun v =>
    if brailleAsciiTable.getD v ' ' = a then some (Char.ofNat (0x2800 + v)) else none

/-- One right-fold step of `splitlinesNl`: a `'\n'` opens a fresh line,
any other character extends the current first line. -/
def slStep (c : Char) (acc : List (List Char)) : List (List Char) :=
  if c = '\n' then [] :: acc
  else (c :: acc.headD []) :: acc.tail

/-- Python's `str.splitlines` restricted to strings whose only line
terminator is `'\n'` (the only terminator the engine emits): a trailing
terminator does not open a final empty line. -/
def splitlinesNl (s : List Char) : List (List Char) :=
  s.foldr slStep []

/-- Python's `'\n'.join`. -/
def joinNl : List (List Char) → List Char
  | [] => []
  | [l] => l
  | l :: ls => l ++ '\n' :: joinNl ls

/-- Map with a fallible function, propagating the first error
(the shape of a Python `for` loop whose body can raise). -/
def exceptMap (f : α → Except PyErr β) : List α → Except PyErr (List β)
  | [] => .ok []
  | x :: xs =>
    match f x with
    | .error e => .error e
    | .ok y =>
      match exceptMap f xs with
      | .error e => .error e
      | .ok ys => .ok (y :: ys)

/-- One character of `brailleUnicodeToBrailleAscii`: `ascii_chars[char]`
(`KeyError` on a non-cell character). -/
def encCh (ch : Char) : Except PyErr Char :=
  match ascii_chars ch with
  | some a => .ok a
  | none => .error .keyError

/-- One line of `brailleUnicodeToBrailleAscii`. -/
def asciiOfLine (l : List Char) : Except PyErr (List Char) :=
  exceptMap encCh l

/-- `basic.brailleUnicodeToBrailleAscii`: splitlines, map each character
through `ascii_chars`, join with `'\n'`. -/
def brailleUnicodeToBrailleAscii (brailleUnicode : List Char) : Except PyErr (List Char) :=
  match exceptMap asciiOfLine (splitlinesNl brailleUnicode) with
  | .error e => .error e
  | .ok asciiLines => .ok (joinNl asciiLines)

/-- One character of `brailleAsciiToBrailleUnicode`:
`braille_chars[char.upper()]`. -/
def decCh (ch : Char) : Except PyErr Char :=
  match braille_chars (pyUpper ch) with
  | some b => .ok b
  | none => .error .keyError

/-- One line of `brailleAsciiToBrailleUnicode`. -/
def unicodeOfLine (l : List Char) : Except PyErr (List Char) :=
  exceptMap decCh l

/-- `basic.brailleAsciiToBrailleUnicode`: splitlines, map each character
through the inverted table after upper-casing, join with `'\n'`. -/
def brailleAsciiToBrailleUnicode (brailleAscii : List Char) : Except PyErr (List Char) :=
  match exceptMap unicodeOfLine (splitlinesNl brailleAscii) with
  | .error e => .error e
  | .ok brailleLines => .ok (joinNl brailleLines)

/-- ASCII-then-Unicode round trip of a Unicode braille string. -/
def roundTripUnicode (s : List Char) : Except PyErr (List Char) :=
  match brailleUnicodeToBrailleAscii s with
  | .error e => .error e
  | .ok a => brailleAsciiToBrailleUnicode a

/-- A Unicode braille string over the table's cells, possibly multi-line. -/
def isBrailleString (s : List Char) : Bool :=
  s.all fun c => isCellChar c || c == '\n'

/-- The canonical ASCII character of a braille-block character. -/
def encChar (c : Char) : Char := brailleAsciiTable.getD (cellVal c) ' '

/-- Decidable equality of `Except` results, so concrete runs can be checked
by `decide`. -/
instance exceptDecEq {e a : Type} [DecidableEq e] [DecidableEq a] :
    DecidableEq (Except e a) := fun x y =>
  match x, y with
  | .error u, .error v =>
    if h : u = v then .isTrue (by rw [h]) else .isFalse (by intro hc; cases hc; exact h rfl)
  | .error _, .ok _ => .isFalse (by intro hc; cases hc)
  | .ok _, .error _ => .isFalse (by intro hc; cases hc)
  | .ok u, .ok v =>
    if h : u = v then .isTrue (by rw [h]) else .isFalse (by intro hc; cases hc; exact h rfl)

/-- Modelled from the spec: an accidental of the host pitch model — a name
(`"sharp"`, `"flat"`, `"natural"`, ...) and the tri-state display flag
(`None` / `True` / `False`); the accidental is shown unless the flag is
explicitly `False`. -/
structure Accidental where
  name : String
  displayStatus : Option Bool
deriving DecidableEq, Repr

/-- Modelled from the spec: the host pitch as consumed by the encoders — a
diatonic scale step (0 = C .. 6 = B), a signed absolute octave, and an
optional accidental. -/
structure Pitch where
  step : Fin 7
  octave : Int
  accidental : Option Accidental
deriving DecidableEq, Repr

/-- The diatonic note number of a pitch (seven steps per octave). -/
def diatonicNum (p : Pitch) : Int := 7 * p.octave + p.step.val

/-- Modelled from the spec (glossary): the undirected generic interval
`interval.notesToInterval(a, b).generic.undirected` of the host model —
one more than the absolute diatonic-number difference (unison = 1,
second = 2, ...). -/
def genericUndirected (a b : Pitch) : Nat :=
  (diatonicNum b - diatonicNum a).natAbs + 1

/-- `basic.showOctaveWithNote`: the octave-display heuristic. -/
def showOctaveWithNote (previousNote : Option Pitch) (currentNote : Pitch) : Bool :=
  match previousNote with
  | none => true
  | some p =>
    let i := genericUndirected p currentNote
    let isSixthOrGreater : Bool := decide (6 ≤ i)
    let isFourthOrFifth : Bool := decide (i = 4) || decide (i = 5)
    let sameOctaveAsPrevious : Bool := decide (p.octave = currentNote.octave)
    let doShowOctave := false
    if isSixthOrGreater || (isFourthOrFifth && !sameOctaveAsPrevious) then true
    else doShowOctave

/-- Modelled from the spec: `lookup.symbols['first_set_missing_fingermark']`
(dot 6), pinned by the doctest `transcribeNoteFingering('x,2') == ⠠⠃`. -/
def symbolsFirstSetMissing : Char := '⠠'

/-- Modelled from the spec: `lookup.symbols['second_set_missing_fingermark']`
(dot 3), pinned by the doctest `transcribeNoteFingering('2,x') == ⠃⠄`. -/
def symbolsSecondSetMissing : Char := '⠄'

/-- Modelled from the spec: `lookup.symbols['finger_change']` (dots 1-4),
pinned by the doctest `transcribeNoteFingering('2-1') == ⠃⠉⠁`. -/
def symbolsFingerChange : Char := '⠉'

/-- Modelled from the spec: one finger mark of `lookup.fingerMarks`
(marks `'1'`–`'5'`), pinned by the `transcribeNoteFingering` doctests. -/
def fingerMark1 (c : Char) : Option Char :=
  if c = '1' then some '⠁'
  else if c = '2' then some '⠃'
  else if c = '3' then some '⠇'
  else if c = '4' then some '⠂'
  else if c = '5' then some '⠅'
  else none

/-- `lookup.fingerMarks` keyed, as in the source, by the whole token
string. -/
def fingerMarks (s : List Char) : Option Char :=
  match s with
  | [c] => fingerMark1 c
  | _ => none

/-- One iteration of the `transcribeNoteFingering` loop at post-reversal
index `i`: split the token on `'-'`; a 2-part token is a fingering change,
a 1-part token is a plain mark or — when absence is allowed and the mark is
unknown — the index-selected missing-fingermark placeholder; any other
token shape contributes nothing. -/
def fingeringTokenTrans (allowAbsence : Bool) (i : Nat) (token : List Char) :
    Except PyErr (List Char) :=
  let change := token.splitOn '-'
  if change.length = 2 then
    match fingerMarks (change.getD 0 []), fingerMarks (change.getD 1 []) with
    | some a, some b => .ok [a, symbolsFingerChange, b]
    | _, _ => .error .keyError
  else if change.length = 1 then
    match fingerMarks (change.getD 0 []) with
    | some m => .ok [m]
    | none =>
      if allowAbsence then
        if i = 0 then .ok [symbolsFirstSetMissing] else .ok [symbolsSecondSetMissing]
      else .error .keyError
  else .ok []

/-- The `for i in range(len(choice))` loop of `transcribeNoteFingering`. -/
def fingeringLoop (allowAbsence : Bool) (i : Nat) :
    List (List Char) → Except PyErr (List Char)
  | [] => .ok []
  | t :: ts =>
    match fingeringTokenTrans allowAbsence i t with
    | .error e => .error e
    | .ok s =>
      match fingeringLoop allowAbsence (i + 1) ts with
      | .error e => .error e
      | .ok rest => .ok (s ++ rest)

/-- `basic.transcribeNoteFingering` (the fingering given as its character
list): the single-character shortcut, the `','` choice split (absence
allowed) or `'|'` choice split (absence not allowed), the reversal when
`upperFirstInFingering` is false, and the conversion of any `KeyError`
into `BrailleBasicException` by the enclosing handler. -/
def transcribeNoteFingering (sampleNoteFingering : List Char)
    (upperFirstInFingering : Bool) : Except PyErr (List Char) :=
  let body : Except PyErr (List Char) :=
    if sampleNoteFingering.length = 1 then
      match fingerMarks sampleNoteFingering with
      | some m => .ok [m]
      | none => .error .keyError
    else
      let choice0 := sampleNoteFingering.splitOn ','
      if choice0.length = 2 ∨ choice0.length = 1 then
        let allowAbsence := choice0.length = 2
        let choice1 := if choice0.length = 2 then choice0
          else sampleNoteFingering.splitOn '|'
        let choice2 := if upperFirstInFingering then choice1 else choice1.reverse
        fingeringLoop allowAbsence 0 choice2
      else .error .keyError
  match body with
  | .error .keyError => .error .brailleBasicException
  | r => r

/-- Modelled from the spec: `lookup.symbols['basic_exception']` — the
reserved "untranscribable" placeholder (a literary question mark), shown by
the `restToBraille` docstring example as `⠜⠦`. -/
def symbolsBasicException : List Char := ['⠜', '⠦']

/-- Modelled from the spec: one braille digit of `lookup.numbers`
(digits map to the letters a–j), pinned by the `numberToBraille`
doctests (`12` ↦ `⠼⠁⠃`, `7` ↦ `⠼⠛`). -/
def numberDigit (n : Nat) : Char :=
  ['⠚', '⠁', '⠃', '⠉', '⠙', '⠑', '⠋', '⠛', '⠓', '⠊'].getD n '⠚'

/-- Modelled from the spec: `lookup.naturals` — the cancellation prefix of
`k` natural signs, defined for counts 0–7; `naturals[3]` is pinned as
`⠡⠡⠡` by the `keySigToBraille` doctest. -/
def naturals (k : Nat) : Option (List Char) :=
  if k ≤ 7 then some (List.replicate k '⠡') else none

/-- Modelled from the spec: `lookup.keySignatures`, keyed by the signed
sharp count −7..7.  `keySignatures[0]` is the empty string (pinned by the
doctest `keySigToBraille(0, outgoing=-3) == ⠡⠡⠡`) and `keySignatures[4]`
is `⠼⠙⠩` (pinned by the doctest for four sharps); one to three
sharps/flats repeat the sharp/flat sign. -/
def keySignatures (sharps : Int) : Option (List Char) :=
  if sharps = 0 then some []
  else if 1 ≤ sharps ∧ sharps ≤ 3 then some (List.replicate sharps.natAbs '⠩')
  else if 4 ≤ sharps ∧ sharps ≤ 7 then some ['⠼', numberDigit sharps.natAbs, '⠩']
  else if -3 ≤ sharps ∧ sharps ≤ -1 then some (List.replicate sharps.natAbs '⠣')
  else if -7 ≤ sharps ∧ sharps ≤ -4 then some ['⠼', numberDigit sharps.natAbs, '⠣']
  else none

/-- `basic.keySigToBraille`, on the sharps counts of the two signatures
(the only attributes the source reads).  An unrepresentable incoming count
returns the placeholder; with an outgoing signature, the cancellation
prefix is computed inside a `try` whose `KeyError` handler (an
unrepresentable naturals count) degrades to the base glyph alone.  The
sign test mirrors `outgoingSharps/absOutgoing != incomingSharps/absIncoming`,
which Python only evaluates when both counts are nonzero. -/
def keySigToBraille (incomingSharps : Int) (outgoing : Option Int) : List Char :=
  match keySignatures incomingSharps with
  | none => symbolsBasicException
  | some ks_braille =>
    match outgoing with
    | none => ks_braille
    | some outgoingSharps =>
      if incomingSharps = 0 ∨ outgoingSharps = 0 ∨
          outgoingSharps.sign ≠ incomingSharps.sign then
        match naturals outgoingSharps.natAbs with
        | none => ks_braille
        | some nat => nat ++ ks_braille
      else if incomingSharps.natAbs ≤ outgoingSharps.natAbs then
        match naturals (outgoingSharps - incomingSharps).natAbs with
        | none => ks_braille
        | some nat => nat ++ ks_braille
      else ks_braille

/-- The natural-marker count asserted by the spec for incoming count `i`
and outgoing count `o`: `|o|` when the two are on opposite sides of zero or
either is zero; `|o − i|` when they have the same sign and `|o| ≥ |i|`;
zero otherwise. -/
def specNaturalCount (i o : Int) : Nat :=
  if i = 0 ∨ o = 0 ∨ (0 < i ∧ o < 0) ∨ (i < 0 ∧ 0 < o) then o.natAbs
  else if i.natAbs ≤ o.natAbs then (o - i).natAbs
  else 0

/-- Modelled from the spec: `lookup.accidentals`, pinned by the doctests
(`⠩` sharp, `⠣` flat, `⠡` natural). -/
def accidentals (name : String) : Option Char :=
  if name = "sharp" then some '⠩'
  else if name = "flat" then some '⠣'
  else if name = "natural" then some '⠡'
  else none

/-- Modelled from the spec: `lookup.octaves` for the octaves 1–7, pinned by
the doctests (octave 2 `⠘`, octave 4 `⠐`, octave 5 `⠨`, octave 6 `⠰`). -/
def octaves (o : Int) : Option Char :=
  if o = 1 then some '⠈'
  else if o = 2 then some '⠘'
  else if o = 3 then some '⠸'
  else if o = 4 then some '⠐'
  else if o = 5 then some '⠨'
  else if o = 6 then some '⠰'
  else if o = 7 then some '⠠'
  else none

/-- Modelled from the spec: `lookup.beforeNoteExpr` — the before-note
expression (articulation) glyphs, keyed by the articulation name (a
character list, like every Python string the engine compares or sorts).
Values beyond staccato are schematic but distinct. -/
def beforeNoteExpr (name : List Char) : Option (List Char) :=
  if name = "staccato".toList then some ['⠦']
  else if name = "staccatissimo".toList then some ['⠠', '⠦']
  else if name = "accent".toList then some ['⠨', '⠦']
  else if name = "tenuto".toList then some ['⠸', '⠦']
  else none

/-- Dot-pattern bits of the eighth-note glyph per scale step (C D E F G A B);
the other duration categories add dots 3/6.  Pinned by the doctests
(C quarter `⠹`, C half `⠝`, A half `⠎`, G whole `⠷`, C eighth `⠙`,
E eighth `⠋`). -/
def stepBits : Fin 7 → Nat := ![25, 17, 11, 27, 19, 10, 26]

/-- Modelled from the spec: the added dots of a duration category
(whole: dots 3-6, half: dot 3, quarter: dot 6, eighth: none); other
categories are not in the modelled table. -/
def durBits (durType : String) : Option Nat :=
  if durType = "whole" then some 36
  else if durType = "half" then some 4
  else if durType = "quarter" then some 32
  else if durType = "eighth" then some 0
  else none

/-- `lookup.pitchNameToNotes[step][durType]`. -/
def noteGlyph (step : Fin 7) (durType : String) : Option Char :=
  (durBits durType).map fun d => Char.ofNat (0x2800 + stepBits step + d)

/-- The eighth-note glyph of a step (`notesInStep['eighth']`, always
present). -/
def eighthGlyph (step : Fin 7) : Char := Char.ofNat (0x2800 + stepBits step)

/-- Modelled from the spec: assorted `lookup.symbols` glyphs used by the
note encoder.  `dot `⠄``, `word `⠜``, `uppercase `⠠``, `metronome `⠶`` and
`space `⠀`` are pinned by doctests; the slur, triplet and tie glyphs are
schematic but distinct. -/
def symbolsDot : Char := '⠄'

def symbolsWord : Char := '⠜'

def symbolsUppercase : Char := '⠠'

def symbolsSpace : Char := '⠀'

def symbolsTriplet : List Char := ['⠆']

def symbolsTie : List Char := ['⠈', '⠉']

def symbolsOpeningSingleSlur : List Char := ['⠉']

def symbolsOpeningDoubleSlur : List Char := ['⠉', '⠉']

def symbolsClosingDoubleSlur : List Char := ['⠉']

def symbolsOpeningBracketSlur : List Char := ['⠰', '⠃']

def symbolsClosingBracketSlur : List Char := ['⠘', '⠆']

/-- The seven per-note flag entries of the module-level `beamStatus`
table, in the order of the `falseKeywords` list. -/
structure BeamStatus where
  beginLongBracketSlur : Bool
  endLongBracketSlur : Bool
  beginLongDoubleSlur : Bool
  endLongDoubleSlur : Bool
  shortSlur : Bool
  beamStart : Bool
  beamContinue : Bool
deriving DecidableEq, Repr

/-- Modelled from the spec: a host duration — category name, dot count,
full names of the attached tuplets, and whether it is a grace duration
(`'GraceDuration' in duration.classes`). -/
structure Duration where
  durType : String
  dots : Nat
  tuplets : List String
  isGrace : Bool
deriving DecidableEq, Repr

/-- Modelled from the spec: a host note as `noteToBraille` consumes it.
The seven slur/beam attributes are optional (`getattr` defaults a missing
attribute to False); `fingering` is optional (a missing attribute skips the
fingering step); `brailleEnglish` is the attached `_brailleEnglish` trace
(its text content is abstracted). -/
structure MNote where
  pitch : Pitch
  duration : Duration
  articulations : List (List Char)
  fingering : Option (List Char)
  tie : Option String
  beginLongBracketSlur : Option Bool
  endLongBracketSlur : Option Bool
  beginLongDoubleSlur : Option Bool
  endLongDoubleSlur : Option Bool
  shortSlur : Option Bool
  beamStart : Option Bool
  beamContinue : Option Bool
  brailleEnglish : List String
deriving DecidableEq, Repr

/-- The `for keyword in falseKeywords` loop heading `noteToBraille`: every
entry of `beamStatus` is overwritten from the note before any entry is
read. -/
def overwriteBeamStatus (n : MNote) : BeamStatus where
  beginLongBracketSlur := n.beginLongBracketSlur.getD false
  endLongBracketSlur := n.endLongBracketSlur.getD false
  beginLongDoubleSlur := n.beginLongDoubleSlur.getD false
  endLongDoubleSlur := n.endLongDoubleSlur.getD false
  shortSlur := n.shortSlur.getD false
  beamStart := n.beamStart.getD false
  beamContinue := n.beamContinue.getD false

/-- The opening-slur block of `noteToBraille` (bracket slur takes
precedence over double slur; a combined begin+end bracket slur adds the
closing bracket immediately). -/
def slurOpenSegment (bs : BeamStatus) : List Char :=
  (if bs.beginLongBracketSlur then symbolsOpeningBracketSlur
   else if bs.beginLongDoubleSlur then symbolsOpeningDoubleSlur
   else []) ++
  (if bs.endLongBracketSlur && bs.beginLongBracketSlur then
    symbolsClosingBracketSlur
   else [])

/-- Python's lexicographic string comparison, on character lists. -/
def listCharLt : List Char → List Char → Bool
  | [], [] => false
  | [], _ :: _ => true
  | _ :: _, [] => false
  | a :: as, b :: bs =>
    if a < b then true else if b < a then false else listCharLt as bs

/-- Stable insertion of one name into an already-sorted name list: the
inserted (originally earlier) element goes before any equal name. -/
def insertArtic (x : List Char) : List (List Char) → List (List Char)
  | [] => [x]
  | y :: ys => if listCharLt y x then y :: insertArtic x ys else x :: y :: ys

/-- Python's in-place `articulations.sort(key=lambda a: a.name)`: a stable
sort by name. -/
def sortArtics (l : List (List Char)) : List (List Char) :=
  l.foldr insertArtic []

def isStaccatoName (s : List Char) : Bool :=
  s = "staccato".toList || s = "staccatissimo".toList

/-- The first articulation pass: staccato/staccatissimo glyphs in
declaration order. -/
def staccatoSegment (artics : List (List Char)) : List Char :=
  (artics.filter isStaccatoName).flatMap fun nm => (beforeNoteExpr nm).getD []

/-- The second articulation pass: the remaining articulations after the
in-place sort, an unknown name skipped (its `KeyError` is caught). -/
def sortedOtherSegment (artics : List (List Char)) : List Char :=
  (sortArtics artics).flatMap fun nm =>
    if isStaccatoName nm then [] else (beforeNoteExpr nm).getD []

/-- The full articulation block of `noteToBraille`. -/
def articSegment (artics : List (List Char)) : List Char :=
  staccatoSegment artics ++ sortedOtherSegment artics

/-- The accidental block: shown when present and not explicitly
suppressed; an accidental missing from the table is skipped (caught
`KeyError`). -/
def accidentalSegment (p : Pitch) : List Char :=
  match p.accidental with
  | none => []
  | some acc =>
    if acc.displayStatus ≠ some false then
      match accidentals acc.name with
      | some g => [g]
      | none => []
    else []

/-- The octave block: emitted on request; an octave missing from the table
is skipped (caught `KeyError`). -/
def octaveSegment (showOctave : Bool) (p : Pitch) : List Char :=
  if showOctave then
    match octaves p.octave with
    | some g => [g]
    | none => []
  else []

/-- The name+duration block: a grace note forces the eighth glyph (no
dots); a beamed continuation forces the eighth glyph; otherwise the
duration category is looked up, `none` marking the fatal `KeyError` that
makes the whole note untranscribable.  Duration dots follow the glyph. -/
def durationSegment (beamContinue : Bool) (step : Fin 7) (d : Duration) :
    Option (List Char) :=
  if d.isGrace then some [eighthGlyph step]
  else
    match (if beamContinue then some (eighthGlyph step) else noteGlyph step d.durType) with
    | none => none
    | some g => some ([g] ++ List.replicate d.dots symbolsDot)

/-- The fingering block: a missing attribute or an invalid fingering is
skipped (caught `AttributeError` / `BrailleBasicException`). -/
def fingeringSegment (fingering : Option (List Char)) (upperFirst : Bool) : List Char :=
  match fingering with
  | none => []
  | some f =>
    match transcribeNoteFingering f upperFirst with
    | .ok s => s
    | .error _ => []

/-- The short-slur and closing-slur block. -/
def slurCloseSegment (bs : BeamStatus) : List Char :=
  (if bs.shortSlur then symbolsOpeningSingleSlur else []) ++
  (if !(bs.endLongBracketSlur && bs.beginLongBracketSlur) then
    (if bs.endLongDoubleSlur then symbolsClosingDoubleSlur
     else if bs.endLongBracketSlur then symbolsClosingBracketSlur
     else [])
   else [])

/-- The tie block: a tie that is not a `stop` emits the tie glyph. -/
def tieSegment (tie : Option String) : List Char :=
  match tie with
  | some t => if t ≠ "stop" then symbolsTie else []
  | none => []

/-- The `beamStatus` table as `noteToBraille` leaves it: after the
overwrite, a triplet on a beam continuation (that does not start the beam)
clears `beamContinue`; nothing else is written. -/
def beamStatusAfter (music21Note : MNote) : BeamStatus :=
  let bs := overwriteBeamStatus music21Note
  if music21Note.duration.tuplets.head? = some "Triplet" ∧
      ¬bs.beamStart ∧ bs.beamContinue then
    { bs with beamContinue := false }
  else bs

/-- The note as a `noteToBraille` call leaves it: the `_brailleEnglish`
trace re-attached (its text abstracted) and — when the articulation list
is nonempty — the articulations sorted in place by name. -/
def noteMutated (music21Note : MNote) : MNote :=
  { music21Note with
    articulations :=
      if music21Note.articulations.isEmpty then music21Note.articulations
      else sortArtics music21Note.articulations,
    brailleEnglish := ["noteToBraille"] }

/-- The braille string of `basic.noteToBraille`: the fixed segment order
(opening slurs, triplet, articulations, accidental, octave, name+duration
with dots, fingering, short/closing slurs, tie); a duration-category
lookup miss returns the placeholder glyph instead. -/
def noteToBrailleStr (music21Note : MNote) (showOctave : Bool)
    (upperFirstInFingering : Bool) : List Char :=
  let bs := overwriteBeamStatus music21Note
  let bs2 := beamStatusAfter music21Note
  let seg1 := slurOpenSegment bs
  let seg2 := if music21Note.duration.tuplets.head? = some "Triplet" ∧ bs.beamStart
    then symbolsTriplet else []
  let seg3 := if music21Note.articulations.isEmpty then []
    else articSegment music21Note.articulations
  let seg4 := accidentalSegment music21Note.pitch
  let seg5 := octaveSegment showOctave music21Note.pitch
  match durationSegment bs2.beamContinue music21Note.pitch.step music21Note.duration with
  | none => symbolsBasicException
  | some seg6 =>
    let seg7 := fingeringSegment music21Note.fingering upperFirstInFingering
    let seg8 := slurCloseSegment bs2
    let seg9 := tieSegment music21Note.tie
    seg1 ++ seg2 ++ seg3 ++ seg4 ++ seg5 ++ seg6 ++ seg7 ++ seg8 ++ seg9

/-- `basic.noteToBraille` with the module-level `beamStatus` table passed
explicitly: the braille string, the note as the call leaves it, and the
final table state.  The incoming table plays no role because the source
overwrites all seven entries before any read. -/
def noteToBrailleSt (_bs0 : BeamStatus) (music21Note : MNote)
    (showOctave : Bool) (upperFirstInFingering : Bool) :
    List Char × MNote × BeamStatus :=
  (noteToBrailleStr music21Note showOctave upperFirstInFingering,
   noteMutated music21Note, beamStatusAfter music21Note)

/-- The module-level `beamStatus` at import time (empty table; every entry
is overwritten before use). -/
def initBeamStatus : BeamStatus :=
  ⟨false, false, false, false, false, false, false⟩

/-- `basic.noteToBraille`: the braille string of a note (the table state
it runs under is irrelevant, see the C10 theorem). -/
def noteToBraille (music21Note : MNote) (showOctave : Bool)
    (upperFirstInFingering : Bool) : List Char :=
  (noteToBrailleSt initBeamStatus music21Note showOctave upperFirstInFingering).1

/-- Modelled from the spec: `lookup.intervals` — the chord interval glyphs
for the generic intervals 2–8, pinned by the `chordToBraille` doctests
(third `⠬`, fourth `⠼`, fifth `⠔`, sixth `⠴`, octave `⠤`, second `⠌`). -/
def intervals (n : Nat) : Option Char :=
  if n = 2 then some '⠌'
  else if n = 3 then some '⠬'
  else if n = 4 then some '⠼'
  else if n = 5 then some '⠔'
  else if n = 6 then some '⠴'
  else if n = 7 then some '⠒'
  else if n = 8 then some '⠤'
  else none

/-- Modelled from the spec: a host chord as the encoder consumes it — the
component pitches and the chord's duration (passed on to the standalone
base note). -/
structure MChord where
  pitches : List Pitch
  duration : Duration
deriving DecidableEq, Repr

/-- `note.Note(basePitch, quarterLength=chord.quarterLength)`: the
standalone note built for the chord's base pitch. -/
def noteFromPitch (p : Pitch) (d : Duration) : MNote :=
  { pitch := p, duration := d, articulations := [], fingering := none,
    tie := none, beginLongBracketSlur := none, endLongBracketSlur := none,
    beginLongDoubleSlur := none, endLongDoubleSlur := none, shortSlur := none,
    beamStart := none, beamContinue := none, brailleEnglish := [] }

/-- Stable insertion for the host pitch ordering. -/
def insertPitch (x : Pitch) : List Pitch → List Pitch
  | [] => [x]
  | y :: ys =>
    if diatonicNum y < diatonicNum x then y :: insertPitch x ys else x :: y :: ys

/-- Modelled from the spec: `sorted(music21Chord.pitches)` — the host
pitch ordering, modelled on diatonic numbers (a stable sort). -/
def sortPitches (l : List Pitch) : List Pitch :=
  l.foldr insertPitch []

/-- One iteration of the non-base-pitch loop of `chordToBraille`: the
undirected generic interval from the base pitch, folded by `% 8 + 1` when
above an octave — in which case an octave mark is emitted for the first
non-base pitch always, and for a later pitch only when the relative
interval from the immediately preceding pitch is at least an octave.
A missing octave or interval table entry raises (uncaught) `KeyError`. -/
def chordContrib (basePitch previousPitch currentPitch : Pitch) (isFirst : Bool) :
    Except PyErr (List Char) :=
  let intervalDistance := genericUndirected basePitch currentPitch
  if intervalDistance > 8 then
    let oct : Except PyErr (List Char) :=
      if isFirst then
        match octaves currentPitch.octave with
        | some g => .ok [g]
        | none => .error .keyError
      else if genericUndirected previousPitch currentPitch ≥ 8 then
        match octaves currentPitch.octave with
        | some g => .ok [g]
        | none => .error .keyError
      else .ok []
    match oct with
    | .error e => .error e
    | .ok o =>
      match intervals (intervalDistance % 8 + 1) with
      | some ig => .ok (o ++ [ig])
      | none => .error .keyError
  else
    match intervals intervalDistance with
    | some ig => .ok [ig]
    | none => .error .keyError

/-- The `for currentPitchIndex in range(1, len(allPitches))` loop of
`chordToBraille`. -/
def chordLoop (basePitch : Pitch) (previousPitch : Pitch) (isFirst : Bool) :
    List Pitch → Except PyErr (List Char)
  | [] => .ok []
  | p :: ps =>
    match chordContrib basePitch previousPitch p isFirst with
    | .error e => .error e
    | .ok s =>
      match chordLoop basePitch p false ps with
      | .error e => .error e
      | .ok rest => .ok (s ++ rest)

/-- `basic.chordToBraille`: sort the pitches (reversed when descending),
encode the extreme pitch as a standalone note — degrading to the
placeholder when that note is untranscribable — then express the remaining
pitches as interval glyphs from the base pitch.  An empty chord raises
`IndexError`. -/
def chordToBraille (music21Chord : MChord) (descending showOctave : Bool) :
    Except PyErr (List Char) :=
  let allPitches := if descending then (sortPitches music21Chord.pitches).reverse
    else sortPitches music21Chord.pitches
  match allPitches with
  | [] => .error .indexError
  | basePitch :: rest =>
    let brailleNote := noteToBraille (noteFromPitch basePitch music21Chord.duration)
      showOctave true
    if brailleNote = symbolsBasicException then .ok symbolsBasicException
    else
      match chordLoop basePitch basePitch true rest with
      | .error e => .error e
      | .ok contribs => .ok (brailleNote ++ contribs)

/-- The braille dot patterns of the letters a–z, pinned by the doctests
(`f` ↦ `⠋` in the dynamic doctest, Andante ↦ `⠠⠁⠝⠙⠁⠝⠞⠑`). -/
def alphaBits : List Nat :=
  [1, 3, 9, 25, 17, 11, 27, 19, 10, 26, 5, 7, 13,
   29, 21, 15, 31, 23, 14, 30, 37, 39, 58, 45, 61, 53]

/-- Modelled from the spec: `lookup.alphabet` — the letters a–z plus the
literary comma `⠂` and period `⠲` (the period is pinned by the tempo-text
doctest). -/
def alphabet (c : Char) : Option Char :=
  if 'a' ≤ c ∧ c ≤ 'z' then
    some (Char.ofNat (0x2800 + alphaBits.getD (c.toNat - 97) 0))
  else if c = ',' then some '⠂'
  else if c = '.' then some '⠲'
  else none

/-- Python's `str.isupper` restricted to ASCII letters. -/
def isUpperAscii (c : Char) : Bool := 'A' ≤ c && c ≤ 'Z'

/-- Python's `str.lower` on a single ASCII letter. -/
def toLowerAscii (c : Char) : Char :=
  if isUpperAscii c then Char.ofNat (c.toNat + 32) else c

/-- `basic.wordToBraille` (the word given as its character list): in
text-expression mode uppercase letters fold to the lowercase glyph and a
literal period maps to the dot-3 marker; in normal mode uppercase letters
are preceded by the shift marker; the first untranslatable character
raises `BrailleBasicException` and no partial output is returned. -/
def wordToBraille (sampleWord : List Char) (isTextExpression : Bool) :
    Except PyErr (List Char) :=
  let perLetter : Char → Except PyErr (List Char) := fun letter =>
    if isTextExpression then
      if isUpperAscii letter then
        match alphabet (toLowerAscii letter) with
        | some g => .ok [g]
        | none => .error .brailleBasicException
      else if letter = '.' then .ok [symbolsDot]
      else
        match alphabet letter with
        | some g => .ok [g]
        | none => .error .brailleBasicException
    else
      if isUpperAscii letter then
        match alphabet (toLowerAscii letter) with
        | some g => .ok [symbolsUppercase, g]
        | none => .error .brailleBasicException
      else
        match alphabet letter with
        | some g => .ok [g]
        | none => .error .brailleBasicException
  match exceptMap perLetter sampleWord with
  | .error e => .error e
  | .ok parts => .ok parts.flatten

/-- `basic.dynamicToBraille` on the dynamic's value: the word sign, then
the value in text-expression mode; a `BrailleBasicException` is caught and
degrades to the placeholder. -/
def dynamicToBraille (value : List Char) (precedeByWordSign : Bool) : List Char :=
  match wordToBraille value true with
  | .ok w => (if precedeByWordSign then [symbolsWord] else []) ++ w
  | .error _ => symbolsBasicException

/-- Modelled from the spec: `lookup.textExpressions`, the direct-phrase
table.  The spec does not list its entries; it is modelled empty, so every
text expression takes the word-by-word path. -/
def textExpressions (_content : List Char) : Option (List Char) := none

/-- Python's `str.split()` with blanks as the only whitespace. -/
def pySplit (s : List Char) : List (List Char) :=
  (s.splitOn ' ').filter fun w => !w.isEmpty

/-- `basic.textExpressionToBraille` on the expression's content: the
direct-phrase lookup, then the word-by-word path with a leading word sign
and, for multi-word expressions, a trailing word sign; a
`BrailleBasicException` degrades to the placeholder, while the
`IndexError` raised by `allExpr[-1]` on an empty word list escapes. -/
def textExpressionToBraille (content : List Char) (precedeByWordSign : Bool) :
    Except PyErr (List Char) :=
  match textExpressions content with
  | some simpleReturn => .ok simpleReturn
  | none =>
    let allExpr := pySplit content
    let wordPart := if precedeByWordSign then [symbolsWord] else []
    let body : Except PyErr (List Char) :=
      if allExpr.length = 1 then
        match wordToBraille (allExpr.headD []) true with
        | .error e => .error e
        | .ok w => .ok (wordPart ++ w)
      else
        match allExpr.getLast? with
        | none => .error .indexError
        | some _ =>
          match exceptMap (fun w => wordToBraille w true) allExpr with
          | .error e => .error e
          | .ok ws =>
            .ok (wordPart ++ List.intercalate [symbolsSpace] ws ++ [symbolsWord])
    match body with
    | .error .brailleBasicException => .ok symbolsBasicException
    | r => r

/-- Modelled from the spec: `lookup.rests`, pinned by the doctests
(whole `⠍`, quarter `⠧`). -/
def rests (durType : String) : Option Char :=
  if durType = "whole" then some '⠍'
  else if durType = "half" then some '⠥'
  else if durType = "quarter" then some '⠧'
  else if durType = "eighth" then some '⠭'
  else none

/-- `basic.restToBraille` on the rest's duration: glyph plus one dot-3 per
duration dot; an unknown category degrades to the placeholder. -/
def restToBraille (d : Duration) : List Char :=
  match rests d.durType with
  | some simpleRest => [simpleRest] ++ List.replicate d.dots symbolsDot
  | none => symbolsBasicException

/-- Modelled from the spec: `lookup.barlines`, pinned by the doctests
(double `⠣⠅⠄`, final `⠣⠅`, heavy `⠇`); the dashed glyph is schematic. -/
def barlines (style : String) : Option (List Char) :=
  if style = "dashed" then some ['⠨', '⠇']
  else if style = "double" then some ['⠣', '⠅', '⠄']
  else if style = "final" then some ['⠣', '⠅']
  else if style = "heavy" then some ['⠇']
  else none

/-- `basic.barlineToBraille` on the barline's style: an unknown style
degrades to the placeholder. -/
def barlineToBraille (style : String) : List Char :=
  (barlines style).getD symbolsBasicException

/-- Modelled from the spec: the clef variants the encoder distinguishes. -/
inductive MClef where
  | noClef
  | treble
  | bass
  | alto
  | tenor
  | soprano
  | other (sign : String) (line : Nat)
deriving DecidableEq, Repr

/-- Modelled from the spec: `lookup.clefs[sign][line]`, pinned by the
doctests (treble `⠌`, bass `⠼`, alto `⠬`, tenor `⠬⠐`, soprano `⠬⠈`); an
unknown sign/line pair is a `KeyError`. -/
def clefSignLine : MClef → Option (List Char)
  | .treble => some ['⠌']
  | .bass => some ['⠼']
  | .alto => some ['⠬']
  | .tenor => some ['⠬', '⠐']
  | .soprano => some ['⠬', '⠈']
  | .noClef => none
  | .other _ _ => none

/-- `basic.clefToBraille`: the no-clef variant yields the empty string;
otherwise prefix `⠜`, the sign/line glyph, and the suffix — dots 1-3
normally, dots 1-3 replaced by the change-of-hand form only for treble and
bass clefs; an unknown sign/line degrades to the placeholder. -/
def clefToBraille (music21Clef : MClef) (changeSuffix : Bool) : List Char :=
  match music21Clef with
  | .noClef => []
  | c =>
    match clefSignLine c with
    | none => symbolsBasicException
    | some sl =>
      let suffix := if (c = .treble ∨ c = .bass) ∧ changeSuffix then '⠅' else '⠇'
      [symbolsWord] ++ sl ++ [suffix]

/-- The element variants `transcribeNoteGrouping` dispatches on;
`unsupportedEl` stands for any other `Music21Object`. -/
inductive BElement where
  | noteEl (n : MNote)
  | restEl (d : Duration)
  | chordEl (c : MChord)
  | dynamicEl (value : List Char)
  | textExpressionEl (content : List Char)
  | barlineEl (style : String)
  | clefEl (c : MClef)
  | unsupportedEl
deriving DecidableEq, Repr

def isDynamicEl : BElement → Bool
  | .dynamicEl _ => true
  | _ => false

def isTextExpressionEl : BElement → Bool
  | .textExpressionEl _ => true
  | _ => false

def isClefEl : BElement → Bool
  | .clefEl _ => true
  | _ => false

/-- An element grouping with its configuration.  (The source's
`AttributeError` handler fills absent configuration attributes with the
defaults `descendingChords=True`, `showClefSigns=False`,
`upperFirstInNoteFingering=True` and restarts; the model represents a
grouping with its configuration already present.) -/
structure BrailleElementGrouping where
  elements : List BElement
  descendingChords : Bool
  showClefSigns : Bool
  upperFirstInNoteFingering : Bool
deriving DecidableEq, Repr

/-- The loop state of `transcribeNoteGrouping`: the emitted strings, the
previous sounding pitch, the previous element, and the leading-octave
flag. -/
structure GState where
  trans : List (List Char)
  previousNote : Option Pitch
  previousElement : Option BElement
  showLeadingOctave : Bool
deriving DecidableEq, Repr

/-- The per-element dispatch of `transcribeNoteGrouping` (everything in
the loop body before the dot-3 block): returns the extended `trans`, the
new previous pitch and the new leading-octave flag.  Notes and chords
consult the octave heuristic; dynamics, text expressions and shown clefs
reset the pitch state; rests, barlines, hidden clefs and unsupported
elements leave it unchanged; an empty chord raises `IndexError`. -/
def dispatchElement (g : BrailleElementGrouping) (st : GState) (el : BElement) :
    Except PyErr (List (List Char) × Option Pitch × Bool) :=
  match el with
  | .noteEl n =>
    let doShowOctave := match st.previousNote with
      | none => st.showLeadingOctave
      | some p => showOctaveWithNote (some p) n.pitch
    .ok (st.trans ++ [noteToBraille n doShowOctave g.upperFirstInNoteFingering],
      some n.pitch, st.showLeadingOctave)
  | .restEl d =>
    .ok (st.trans ++ [restToBraille d], st.previousNote, st.showLeadingOctave)
  | .chordEl c =>
    let allNotes := sortPitches c.pitches
    match (if g.descendingChords then allNotes.getLast? else allNotes.head?) with
    | none => .error .indexError
    | some currentNote =>
      let doShowOctave := match st.previousNote with
        | none => st.showLeadingOctave
        | some p => showOctaveWithNote (some p) currentNote
      match chordToBraille c g.descendingChords doShowOctave with
      | .error e => .error e
      | .ok s => .ok (st.trans ++ [s], some currentNote, st.showLeadingOctave)
  | .dynamicEl v =>
    .ok (st.trans ++ [dynamicToBraille v true], none, true)
  | .textExpressionEl content =>
    match textExpressionToBraille content true with
    | .error e => .error e
    | .ok s => .ok (st.trans ++ [s], none, true)
  | .barlineEl style =>
    .ok (st.trans ++ [barlineToBraille style], st.previousNote, st.showLeadingOctave)
  | .clefEl c =>
    if g.showClefSigns then .ok (st.trans ++ [clefToBraille c false], none, true)
    else .ok (st.trans, st.previousNote, st.showLeadingOctave)
  | .unsupportedEl =>
    .ok (st.trans, st.previousNote, st.showLeadingOctave)

/-- `lookup.binary_dots` of a braille cell: the three dot rows as
(left, right) pairs — (1,4), (2,5), (3,6). -/
def binary_dots (c : Char) : Option (List (Bool × Bool)) :=
  if isCellChar c then
    let v := cellVal c
    some [(v.testBit 0, v.testBit 3), (v.testBit 1, v.testBit 4),
      (v.testBit 2, v.testBit 5)]
  else none

/-- The `for dots in binary_dots[...]` scan: some row has its left dot set
(`'10'` or `'11'`). -/
def anyRowLeftDot (rows : List (Bool × Bool)) : Bool :=
  rows.any fun r => r.1

/-- The dot-3 insertion of `transcribeNoteGrouping`: inspect the first
character of the last emitted string (`trans[-1][0]` — `IndexError` when
the list or the string is empty, `KeyError` when the character has no dot
pattern) and, when some row of its pattern has the left dot set, insert
the dot-3 marker immediately before that string. -/
def dotThreeInsert (trans : List (List Char)) : Except PyErr (List (List Char)) :=
  match trans.getLast? with
  | none => .error .indexError
  | some lastStr =>
    match lastStr.head? with
    | none => .error .indexError
    | some c =>
      match binary_dots c with
      | none => .error .keyError
      | some rows =>
        if anyRowLeftDot rows then .ok (trans.dropLast ++ [[symbolsDot], lastStr])
        else .ok trans

/-- The disambiguation block of `transcribeNoteGrouping`: triggered when
the previous element was a shown clef (regardless of the current element),
or was a dynamic — or a text expression whose content does not end in a
literal period (`content[-1]` raising `IndexError` on empty content) —
with the current element neither a dynamic nor a text expression. -/
def applyDotThree (g : BrailleElementGrouping) (previousElement : Option BElement)
    (brailleElement : BElement) (trans : List (List Char)) :
    Except PyErr (List (List Char)) :=
  match previousElement with
  | none => .ok trans
  | some prev =>
    if (g.showClefSigns && isClefEl prev) ||
        (isDynamicEl prev && !isDynamicEl brailleElement &&
          !isTextExpressionEl brailleElement) then
      dotThreeInsert trans
    else if isTextExpressionEl prev && !isDynamicEl brailleElement &&
        !isTextExpressionEl brailleElement then
      match prev with
      | .textExpressionEl content =>
        match content.getLast? with
        | none => .error .indexError
        | some lastCh =>
          if lastCh ≠ '.' then dotThreeInsert trans else .ok trans
      | _ => .ok trans
    else .ok trans

/-- One iteration of the `transcribeNoteGrouping` loop: dispatch, the
dot-3 block, then `previousElement = brailleElement`. -/
def transcribeStep (g : BrailleElementGrouping) (st : GState)
    (brailleElement : BElement) : Except PyErr GState :=
  match dispatchElement g st brailleElement with
  | .error e => .error e
  | .ok (trans1, pn, slo) =>
    match applyDotThree g st.previousElement brailleElement trans1 with
    | .error e => .error e
    | .ok trans2 => .ok ⟨trans2, pn, some brailleElement, slo⟩

/-- The element loop of `transcribeNoteGrouping`. -/
def transcribeLoop (g : BrailleElementGrouping) (st : GState) :
    List BElement → Except PyErr GState
  | [] => .ok st
  | el :: els =>
    match transcribeStep g st el with
    | .error e => .error e
    | .ok st2 => transcribeLoop g st2 els

/-- `basic.transcribeNoteGrouping`: run the loop from the empty state and
join the emitted strings. -/
def transcribeNoteGrouping (g : BrailleElementGrouping)
    (showLeadingOctave : Bool) : Except PyErr (List Char) :=
  match transcribeLoop g ⟨[], none, none, showLeadingOctave⟩ g.elements with
  | .error e => .error e
  | .ok st => .ok st.trans.flatten

-- ===================== THEOREMS =====================

theorem slStep_ne_nil (c : Char) (acc : List (List Char)) : slStep c acc ≠ [] := by
  unfold slStep
  split <;> simp

theorem splitlinesNl_nil : splitlinesNl [] = [] := rfl

theorem splitlinesNl_cons (c : Char) (s : List Char) :
    splitlinesNl (c :: s) = slStep c (splitlinesNl s) := rfl

theorem slStep_newline (acc : List (List Char)) : slStep '\n' acc = [] :: acc := by
  simp [slStep]

theorem slStep_other {c : Char} (h : ¬c = '\n') (acc : List (List Char)) :
    slStep c acc = (c :: acc.headD []) :: acc.tail := by
  simp [slStep, h]

theorem splitlinesNl_eq_nil {s : List Char} (h : splitlinesNl s = []) : s = [] := by
  cases s with
  | nil => rfl
  | cons c s' => exact absurd h (by rw [splitlinesNl_cons]; exact slStep_ne_nil c _)

theorem getLast?_cons_of_ne_nil {α : Type} (a : α) {l : List α} (h : l ≠ []) :
    (a :: l).getLast? = l.getLast? := by
  cases l with
  | nil => exact absurd rfl h
  | cons b t => exact List.getLast?_cons_cons

theorem joinNl_cons_of_ne_nil (l : List Char) {L : List (List Char)} (h : L ≠ []) :
    joinNl (l :: L) = l ++ '\n' :: joinNl L := by
  cases L with
  | nil => exact absurd rfl h
  | cons l2 ls => rfl

/-- Joining the split lines recovers the string when it has no trailing
newline. -/
theorem joinNl_splitlinesNl (s : List Char) (h : s.getLast? ≠ some '\n') :
    joinNl (splitlinesNl s) = s := by
  induction s with
  | nil => rfl
  | cons c s' ih =>
    rw [splitlinesNl_cons]
    by_cases hc : c = '\n'
    · subst hc
      have hs' : s' ≠ [] := by rintro rfl; simp at h
      have hlast : s'.getLast? ≠ some '\n' := by
        rwa [getLast?_cons_of_ne_nil _ hs'] at h
      have hL : splitlinesNl s' ≠ [] := fun e => hs' (splitlinesNl_eq_nil e)
      rw [slStep_newline, joinNl_cons_of_ne_nil [] hL, ih hlast]
      rfl
    · rw [slStep_other hc]
      cases hL : splitlinesNl s' with
      | nil =>
        have : s' = [] := splitlinesNl_eq_nil hL
        subst this
        rfl
      | cons l ls =>
        have hs' : s' ≠ [] := by
          rintro rfl
          rw [splitlinesNl_nil] at hL
          exact absurd hL.symm (by simp)
        have hlast : s'.getLast? ≠ some '\n' := by
          rwa [getLast?_cons_of_ne_nil _ hs'] at h
        have ih' : joinNl (l :: ls) = s' := by rw [← hL]; exact ih hlast
        simp only [List.headD_cons, List.tail_cons]
        cases ls with
        | nil =>
          have hl : l = s' := ih'
          rw [hl]
          rfl
        | cons l2 ls2 =>
          rw [joinNl_cons_of_ne_nil _ (by simp), List.cons_append,
            ← joinNl_cons_of_ne_nil l (by simp), ih']

theorem not_newline_mem_splitlinesNl {s : List Char} :
    ∀ l ∈ splitlinesNl s, '\n' ∉ l := by
  induction s with
  | nil => intro l hl; simp [splitlinesNl_nil] at hl
  | cons c s' ih =>
    intro l hl
    rw [splitlinesNl_cons] at hl
    by_cases hc : c = '\n'
    · subst hc
      rw [slStep_newline] at hl
      rcases List.mem_cons.mp hl with rfl | hl
      · simp
      · exact ih l hl
    · rw [slStep_other hc] at hl
      cases hL : splitlinesNl s' with
      | nil =>
        rw [hL] at hl
        simp only [List.headD_nil, List.tail_nil] at hl
        rcases List.mem_cons.mp hl with rfl | hl
        · intro hm
          rcases List.mem_cons.mp hm with hm | hm
          · exact hc hm.symm
          · simp at hm
        · simp at hl
      | cons l0 ls =>
        rw [hL] at hl
        simp only [List.headD_cons, List.tail_cons] at hl
        rcases List.mem_cons.mp hl with rfl | hl
        · intro hm
          rcases List.mem_cons.mp hm with hm | hm
          · exact hc hm.symm
          · exact ih l0 (by rw [hL]; exact List.mem_cons_self l0 ls) hm
        · exact ih l (by rw [hL]; exact List.mem_cons_of_mem l0 hl)

theorem mem_of_mem_splitlinesNl {s : List Char} :
    ∀ l ∈ splitlinesNl s, ∀ c ∈ l, c ∈ s := by
  induction s with
  | nil => intro l hl; simp [splitlinesNl_nil] at hl
  | cons a s' ih =>
    intro l hl c hc
    rw [splitlinesNl_cons] at hl
    by_cases ha : a = '\n'
    · subst ha
      rw [slStep_newline] at hl
      rcases List.mem_cons.mp hl with rfl | hl
      · simp at hc
      · exact List.mem_cons_of_mem _ (ih l hl c hc)
    · rw [slStep_other ha] at hl
      cases hL : splitlinesNl s' with
      | nil =>
        rw [hL] at hl
        simp only [List.headD_nil, List.tail_nil] at hl
        rcases List.mem_cons.mp hl with rfl | hl
        · rcases List.mem_cons.mp hc with rfl | hc
          · exact List.mem_cons_self _ _
          · simp at hc
        · simp at hl
      | cons l0 ls =>
        rw [hL] at hl
        simp only [List.headD_cons, List.tail_cons] at hl
        rcases List.mem_cons.mp hl with rfl | hl
        · rcases List.mem_cons.mp hc with rfl | hc
          · exact List.mem_cons_self _ _
          · exact List.mem_cons_of_mem _
              (ih l0 (by rw [hL]; exact List.mem_cons_self l0 ls) c hc)
        · exact List.mem_cons_of_mem _
            (ih l (by rw [hL]; exact List.mem_cons_of_mem l0 hl) c hc)

theorem splitlinesNl_getLast?_ne_nil {s : List Char} (h : s.getLast? ≠ some '\n') :
    (splitlinesNl s).getLast? ≠ some [] := by
  induction s with
  | nil => simp [splitlinesNl_nil]
  | cons c s' ih =>
    rw [splitlinesNl_cons]
    by_cases hc : c = '\n'
    · subst hc
      rw [slStep_newline]
      have hs' : s' ≠ [] := by rintro rfl; simp at h
      have hlast : s'.getLast? ≠ some '\n' := by
        rwa [getLast?_cons_of_ne_nil _ hs'] at h
      have hL : splitlinesNl s' ≠ [] := fun e => hs' (splitlinesNl_eq_nil e)
      rw [getLast?_cons_of_ne_nil _ hL]
      exact ih hlast
    · rw [slStep_other hc]
      cases hL : splitlinesNl s' with
      | nil => simp
      | cons l ls =>
        simp only [List.headD_cons, List.tail_cons]
        have hs' : s' ≠ [] := by
          rintro rfl
          rw [splitlinesNl_nil] at hL
          exact absurd hL.symm (by simp)
        have hlast : s'.getLast? ≠ some '\n' := by
          rwa [getLast?_cons_of_ne_nil _ hs'] at h
        have ih' := ih hlast
        rw [hL] at ih'
        cases ls with
        | nil => simp
        | cons l2 ls2 =>
          rw [getLast?_cons_of_ne_nil _ (by simp)]
          rwa [getLast?_cons_of_ne_nil _ (by simp)] at ih'

theorem splitlinesNl_single {l : List Char} (hne : l ≠ []) (hnl : '\n' ∉ l) :
    splitlinesNl l = [l] := by
  induction l with
  | nil => exact absurd rfl hne
  | cons c l' ih =>
    have hc : ¬c = '\n' := fun e => hnl (e ▸ List.mem_cons_self c l')
    rw [splitlinesNl_cons, slStep_other hc]
    cases l' with
    | nil => rfl
    | cons c2 l2 =>
      rw [ih (by simp) (fun hm => hnl (List.mem_cons_of_mem c hm))]
      rfl

theorem splitlinesNl_append_newline {l r : List Char} (hnl : '\n' ∉ l) :
    splitlinesNl (l ++ '\n' :: r) = l :: splitlinesNl r := by
  induction l with
  | nil =>
    rw [List.nil_append, splitlinesNl_cons, slStep_newline]
  | cons c l' ih =>
    have hc : ¬c = '\n' := fun e => hnl (e ▸ List.mem_cons_self c l')
    rw [List.cons_append, splitlinesNl_cons,
      ih (fun hm => hnl (List.mem_cons_of_mem c hm)), slStep_other hc]
    rfl

theorem splitlinesNl_joinNl (L : List (List Char))
    (hnl : ∀ l ∈ L, '\n' ∉ l) (hlast : L.getLast? ≠ some []) :
    splitlinesNl (joinNl L) = L := by
  induction L with
  | nil => rfl
  | cons l ls ih =>
    cases ls with
    | nil =>
      have hne : l ≠ [] := by
        intro e
        subst e
        simp at hlast
      exact splitlinesNl_single hne (hnl l (List.mem_cons_self l []))
    | cons l2 ls2 =>
      rw [joinNl_cons_of_ne_nil _ (by simp),
        splitlinesNl_append_newline (hnl l (List.mem_cons_self l _)),
        ih (fun x hx => hnl x (List.mem_cons_of_mem l hx))
          (by rwa [getLast?_cons_of_ne_nil _ (by simp)] at hlast)]

theorem exceptMap_ok_of_forall {α β : Type} {f : α → Except PyErr β} {g : α → β}
    {xs : List α} (hf : ∀ x ∈ xs, f x = .ok (g x)) :
    exceptMap f xs = .ok (xs.map g) := by
  induction xs with
  | nil => rfl
  | cons x xs' ih =>
    rw [exceptMap, hf x (List.mem_cons_self x xs'),
      ih (fun y hy => hf y (List.mem_cons_of_mem x hy))]
    rfl

theorem cellVal_cellChar : ∀ v : Fin 64, cellVal (cellChar v) = v.val := by decide

theorem cell_ascii_decode : ∀ v : Fin 64,
    braille_chars (pyUpper (brailleAsciiTable.getD v.val ' ')) = some (cellChar v) := by
  decide

theorem cell_ascii_ne_newline : ∀ v : Fin 64,
    brailleAsciiTable.getD v.val ' ' ≠ '\n' := by decide

theorem exists_cell_of_isCellChar {c : Char} (h : isCellChar c = true) :
    ∃ v : Fin 64, cellChar v = c := by
  simp only [isCellChar, Bool.and_eq_true, decide_eq_true_eq] at h
  refine ⟨⟨c.toNat - 0x2800, by omega⟩, ?_⟩
  show Char.ofNat (0x2800 + (c.toNat - 0x2800)) = c
  have he : 0x2800 + (c.toNat - 0x2800) = c.toNat := by omega
  rw [he, Char.ofNat_toNat]

theorem encChar_cellChar (v : Fin 64) :
    encChar (cellChar v) = brailleAsciiTable.getD v.val ' ' := by
  rw [encChar, cellVal_cellChar]

theorem braille_chars_encChar {c : Char} (h : isCellChar c = true) :
    braille_chars (pyUpper (encChar c)) = some c := by
  obtain ⟨v, rfl⟩ := exists_cell_of_isCellChar h
  rw [encChar_cellChar]
  exact cell_ascii_decode v

theorem encChar_ne_newline {c : Char} (h : isCellChar c = true) :
    encChar c ≠ '\n' := by
  obtain ⟨v, rfl⟩ := exists_cell_of_isCellChar h
  rw [encChar_cellChar]
  exact cell_ascii_ne_newline v

theorem exceptMap_cons_ok {α β : Type} (f : α → Except PyErr β) (x : α) {y : β}
    {xs : List α} {ys : List β} (hx : f x = .ok y) (hxs : exceptMap f xs = .ok ys) :
    exceptMap f (x :: xs) = .ok (y :: ys) := by
  rw [exceptMap, hx, hxs]

theorem encCh_ok {c : Char} (h : isCellChar c = true) : encCh c = .ok (encChar c) := by
  rw [encCh.eq_def, ascii_chars, if_pos h]
  rfl

theorem decCh_encChar {c : Char} (h : isCellChar c = true) : decCh (encChar c) = .ok c := by
  rw [decCh.eq_def, braille_chars_encChar h]

theorem asciiOfLine_ok {l : List Char} (h : ∀ c ∈ l, isCellChar c = true) :
    asciiOfLine l = .ok (l.map encChar) :=
  exceptMap_ok_of_forall fun c hc => encCh_ok (h c hc)

theorem unicodeOfLine_map_encChar {l : List Char} (h : ∀ c ∈ l, isCellChar c = true) :
    unicodeOfLine (l.map encChar) = .ok l := by
  induction l with
  | nil => rfl
  | cons c l' ih =>
    have ih2 := ih fun x hx => h x (List.mem_cons_of_mem c hx)
    rw [List.map_cons]
    exact exceptMap_cons_ok decCh (encChar c)
      (decCh_encChar (h c (List.mem_cons_self c l'))) ih2

theorem decode_encoded_lines {L : List (List Char)}
    (h : ∀ l ∈ L, ∀ c ∈ l, isCellChar c = true) :
    exceptMap unicodeOfLine (L.map (List.map encChar)) = .ok L := by
  induction L with
  | nil => rfl
  | cons l ls ih =>
    rw [List.map_cons]
    exact exceptMap_cons_ok unicodeOfLine (List.map encChar l)
      (unicodeOfLine_map_encChar (h l (List.mem_cons_self l ls)))
      (ih fun x hx => h x (List.mem_cons_of_mem l hx))

/-- C2 counterexample: the round-trip claim fails, as stated, on the
braille string `"⠁\n"` (a cell followed by a newline): `splitlines` drops
the trailing line terminator, so the round trip returns `"⠁"`. -/
theorem C2_codec_counterexample :
    isBrailleString ['⠁', '\n'] = true ∧
      roundTripUnicode ['⠁', '\n'] ≠ .ok ['⠁', '\n'] := by
  constructor
  · decide
  · decide

set_option maxRecDepth 4000 in
/-- C2 (amended): every braille cell decodes back from its canonical ASCII
encoding (`braille_chars[ascii_chars[c].upper()] == c`), and the full
Unicode → ASCII → Unicode round trip is the identity on every string over
the table's cells and `'\n'` that does not end in `'\n'`.  (The claim's
unrestricted multi-line round trip fails on a trailing newline, which
`splitlines` discards; see the counterexample.) -/
theorem C2_codec_roundTrip :
    (∀ c : Char, isCellChar c = true →
        (ascii_chars c).bind (fun a => braille_chars (pyUpper a)) = some c) ∧
    (∀ s : List Char, isBrailleString s = true → s.getLast? ≠ some '\n' →
        roundTripUnicode s = .ok s) := by
  constructor
  · intro c h
    rw [ascii_chars, if_pos h, Option.some_bind]
    exact braille_chars_encChar h
  · intro s hs hlast
    have hcells : ∀ l ∈ splitlinesNl s, ∀ c ∈ l, isCellChar c = true := by
      intro l hl c hc
      have hmem : c ∈ s := mem_of_mem_splitlinesNl l hl c hc
      have hb := List.all_eq_true.mp hs c hmem
      rcases (Bool.or_eq_true _ _).mp hb with h1 | h2
      · exact h1
      · exact absurd (beq_iff_eq.mp h2 ▸ hc) (not_newline_mem_splitlinesNl l hl)
    have henc : exceptMap asciiOfLine (splitlinesNl s) =
        .ok ((splitlinesNl s).map (List.map encChar)) :=
      exceptMap_ok_of_forall fun l hl => asciiOfLine_ok (hcells l hl)
    have hnl2 : ∀ l2 ∈ (splitlinesNl s).map (List.map encChar), '\n' ∉ l2 := by
      intro l2 hl2 hm
      obtain ⟨l, hl, rfl⟩ := List.mem_map.mp hl2
      obtain ⟨c, hc, he⟩ := List.mem_map.mp hm
      exact encChar_ne_newline (hcells l hl c hc) he
    have hlast2 : ((splitlinesNl s).map (List.map encChar)).getLast? ≠ some [] := by
      rw [List.getLast?_map]
      intro he
      cases hg : (splitlinesNl s).getLast? with
      | none => rw [hg] at he; simp at he
      | some l =>
        rw [hg] at he
        simp only [Option.map_some'] at he
        have hl : l = [] := List.map_eq_nil_iff.mp (Option.some.inj he)
        exact splitlinesNl_getLast?_ne_nil hlast (hl ▸ hg)
    have hdec : splitlinesNl (joinNl ((splitlinesNl s).map (List.map encChar))) =
        (splitlinesNl s).map (List.map encChar) :=
      splitlinesNl_joinNl _ hnl2 hlast2
    have hdecode : brailleAsciiToBrailleUnicode
        (joinNl ((splitlinesNl s).map (List.map encChar))) =
        .ok (joinNl (splitlinesNl s)) := by
      simp only [brailleAsciiToBrailleUnicode]
      rw [hdec, decode_encoded_lines hcells]
    have e1 : brailleUnicodeToBrailleAscii s =
        .ok (joinNl ((splitlinesNl s).map (List.map encChar))) := by
      simp only [brailleUnicodeToBrailleAscii]
      rw [henc]
    simp only [roundTripUnicode]
    rw [e1]
    show brailleAsciiToBrailleUnicode
        (joinNl ((splitlinesNl s).map (List.map encChar))) = .ok s
    rw [hdecode, joinNl_splitlinesNl s hlast]

/-- C1: the octave heuristic `showOctaveWithNote` is a pure function of the
two pitches: with a present previous pitch it returns true iff the
undirected generic interval g satisfies g ≥ 6, or g ∈ {4, 5} and the two
pitches are not in the same absolute octave; with a null previous pitch it
always returns true. -/
theorem C1_showOctaveWithNote :
    (∀ p c : Pitch, showOctaveWithNote (some p) c = true ↔
      (6 ≤ genericUndirected p c ∨
        ((genericUndirected p c = 4 ∨ genericUndirected p c = 5) ∧
          p.octave ≠ c.octave))) ∧
    (∀ c : Pitch, showOctaveWithNote none c = true) := by
  constructor
  · intro p c
    simp only [showOctaveWithNote, Bool.if_true_left, Bool.or_eq_true,
      Bool.and_eq_true, Bool.not_eq_true', decide_eq_true_eq, decide_eq_false_iff_not]
    tauto
  · intro c
    rfl

/-- C7 counterexample: for the fingering `"x,4"` with `upperFirst = false`
the source emits the second-set missing-fingermark placeholder `⠄` for the
absent token (doctest: `⠂⠄`): the placeholder is selected by the
post-reversal loop index, not by the pre-reversal position as the claim
states — the claim predicts the first-set placeholder `⠠` since `x` is
first in the original order. -/
theorem C7_fingering_counterexample :
    transcribeNoteFingering ['x', ',', '4'] false =
        .ok ['⠂', symbolsSecondSetMissing] ∧
      transcribeNoteFingering ['x', ',', '4'] false ≠
        .ok ['⠂', symbolsFirstSetMissing] := by
  constructor <;> decide

/-- C7 (amended): for a two-token comma-choice fingering with exactly one
token the absence literal `x` and the other a known single mark, the two
output glyphs appear in the given order when `upperFirst` is true and in
reversed order when it is false, and the absence placeholder is chosen by
the absent token's position in the post-reversal (emission) order:
first-set-missing when emitted first, second-set-missing when emitted
second. -/
theorem C7_fingering_choice (m g : Char) (h : fingerMarks [m] = some g)
    (hc : m ≠ ',') (hd : m ≠ '-') :
    transcribeNoteFingering ['x', ',', m] true = .ok [symbolsFirstSetMissing, g] ∧
    transcribeNoteFingering ['x', ',', m] false = .ok [g, symbolsSecondSetMissing] ∧
    transcribeNoteFingering [m, ',', 'x'] true = .ok [g, symbolsSecondSetMissing] ∧
    transcribeNoteFingering [m, ',', 'x'] false = .ok [symbolsFirstSetMissing, g] := by
  have hm : m = '1' ∨ m = '2' ∨ m = '3' ∨ m = '4' ∨ m = '5' := by
    by_contra hcon
    push_neg at hcon
    obtain ⟨n1, n2, n3, n4, n5⟩ := hcon
    simp [fingerMarks, fingerMark1, n1, n2, n3, n4, n5] at h
  rcases hm with rfl | rfl | rfl | rfl | rfl <;>
    (obtain rfl := Option.some.inj h;
     exact ⟨by decide, by decide, by decide, by decide⟩)

/-- C7 witness: the amended behaviour at the concrete fingering `"x,2"`,
in both `upperFirst` modes. -/
theorem C7_fingering_choice_witness :
    transcribeNoteFingering ['x', ',', '2'] true = .ok [symbolsFirstSetMissing, '⠃'] ∧
      transcribeNoteFingering ['x', ',', '2'] false = .ok ['⠃', symbolsSecondSetMissing] :=
  ⟨(C7_fingering_choice '2' '⠃' (by decide) (by decide) (by decide)).1,
   (C7_fingering_choice '2' '⠃' (by decide) (by decide) (by decide)).2.1⟩

/-- C4: `keySigToBraille` prefixes the base glyph of a representable
incoming signature with exactly the claimed number of natural markers:
`|o|` naturals when the incoming and outgoing counts are on opposite sides
of zero or either is zero, `|o − i|` naturals when they share a sign and
`|o| ≥ |i|`, and none otherwise. -/
theorem C4_keySig_cancellation (i o : Int) (base : List Char)
    (hks : keySignatures i = some base) (ho : o.natAbs ≤ 7) :
    keySigToBraille i (some o) =
      List.replicate (specNaturalCount i o) '⠡' ++ base := by
  have hi7 : i.natAbs ≤ 7 := by
    by_contra hcon
    rw [keySignatures] at hks
    split_ifs at hks with h1 h2 h3 h4 h5
    · omega
    · omega
    · omega
    · omega
    · omega
  have hi1 : -7 ≤ i := by omega
  have hi2 : i ≤ 7 := by omega
  have ho1 : -7 ≤ o := by omega
  have ho2 : o ≤ 7 := by omega
  clear hi7 ho
  interval_cases i <;> interval_cases o <;>
    (obtain rfl := Option.some.inj hks; decide)

/-- C4 witness: cancelling three flats into an empty (zero-sharp)
signature emits exactly three naturals (the doctest `⠡⠡⠡`). -/
theorem C4_keySig_cancellation_witness :
    keySigToBraille 0 (some (-3)) = ['⠡', '⠡', '⠡'] :=
  C4_keySig_cancellation 0 (-3) [] (by decide) (by decide)

/-- C10: `noteToBraille` is deterministic across calls despite the
module-level `beamStatus` table: every call overwrites all seven flag
entries from the note before any entry is read, so its output does not
depend on the table state left by any earlier encoder calls — the string
returned under any two ambient table states is the same. -/
theorem C10_noteToBraille_state_independent (s1 s2 : BeamStatus) (n : MNote)
    (so upf : Bool) :
    (noteToBrailleSt s1 n so upf).1 = (noteToBrailleSt s2 n so upf).1 := rfl

/-- C9 counterexample: `noteToBraille` does mutate its host note beyond the
trace: the in-place `articulations.sort` reorders the articulation list
(`["tenuto", "accent"]` becomes `["accent", "tenuto"]`), so a non-trace
field of the note changes. -/
theorem C9_frame_counterexample :
    ((noteToBrailleSt initBeamStatus
        { pitch := ⟨0, 4, none⟩,
          duration := ⟨"quarter", 0, [], false⟩,
          articulations := ["tenuto".toList, "accent".toList],
          fingering := none, tie := none,
          beginLongBracketSlur := none, endLongBracketSlur := none,
          beginLongDoubleSlur := none, endLongDoubleSlur := none,
          shortSlur := none, beamStart := none, beamContinue := none,
          brailleEnglish := [] }
        true true).2.1).articulations = ["accent".toList, "tenuto".toList] ∧
      (["accent".toList, "tenuto".toList] : List (List Char)) ≠
        ["tenuto".toList, "accent".toList] := by
  constructor <;> decide

/-- C9 (amended): a `noteToBraille` call leaves every field of the host
note unchanged except the attached `_brailleEnglish` trace and the
articulation list, which it sorts in place by name (when nonempty); and
the trace is a pure side annex — replacing the incoming trace by any other
value leaves the braille output unchanged. -/
theorem C9_frame_effect (n : MNote) (so upf : Bool) :
    ((noteToBrailleSt initBeamStatus n so upf).2.1.pitch = n.pitch ∧
     (noteToBrailleSt initBeamStatus n so upf).2.1.duration = n.duration ∧
     (noteToBrailleSt initBeamStatus n so upf).2.1.fingering = n.fingering ∧
     (noteToBrailleSt initBeamStatus n so upf).2.1.tie = n.tie ∧
     (noteToBrailleSt initBeamStatus n so upf).2.1.beginLongBracketSlur =
       n.beginLongBracketSlur ∧
     (noteToBrailleSt initBeamStatus n so upf).2.1.endLongBracketSlur =
       n.endLongBracketSlur ∧
     (noteToBrailleSt initBeamStatus n so upf).2.1.beginLongDoubleSlur =
       n.beginLongDoubleSlur ∧
     (noteToBrailleSt initBeamStatus n so upf).2.1.endLongDoubleSlur =
       n.endLongDoubleSlur ∧
     (noteToBrailleSt initBeamStatus n so upf).2.1.shortSlur = n.shortSlur ∧
     (noteToBrailleSt initBeamStatus n so upf).2.1.beamStart = n.beamStart ∧
     (noteToBrailleSt initBeamStatus n so upf).2.1.beamContinue = n.beamContinue ∧
     (noteToBrailleSt initBeamStatus n so upf).2.1.articulations =
       (if n.articulations.isEmpty then n.articulations
        else sortArtics n.articulations)) ∧
    (∀ t : List String,
      (noteToBrailleSt initBeamStatus { n with brailleEnglish := t } so upf).1 =
        (noteToBrailleSt initBeamStatus n so upf).1) := by
  constructor
  · exact ⟨rfl, rfl, rfl, rfl, rfl, rfl, rfl, rfl, rfl, rfl, rfl, rfl⟩
  · intro t
    cases n
    rfl

/-- C6: for a note carrying a triplet with the beam-start flag, at least
one articulation, and a displayed accidental, `noteToBraille` emits, in
order: the (possibly empty) slur prefix, the triplet marker, the
staccato/staccatissimo markers in declaration order followed by the
remaining articulations sorted by name (whatever the declaration order
was), the accidental marker, and only then the rest of the note — so the
triplet marker precedes every articulation marker, staccati precede the
other articulations, and every articulation marker precedes the
accidental marker. -/
theorem C6_note_ordering (n : MNote) (so upf : Bool) (acc : Accidental) (accG : Char)
    (ht : n.duration.tuplets.head? = some "Triplet")
    (hb : n.beamStart = some true)
    (ha : n.articulations ≠ [])
    (hacc : n.pitch.accidental = some acc)
    (hshow : acc.displayStatus ≠ some false)
    (haccG : accidentals acc.name = some accG)
    (hdur : (durBits n.duration.durType).isSome) :
    noteToBraille n so upf =
      slurOpenSegment (overwriteBeamStatus n) ++ symbolsTriplet ++
        (staccatoSegment n.articulations ++ sortedOtherSegment n.articulations) ++
        [accG] ++
        (octaveSegment so n.pitch ++
          (durationSegment (beamStatusAfter n).beamContinue n.pitch.step
              n.duration).getD [] ++
          fingeringSegment n.fingering upf ++
          slurCloseSegment (beamStatusAfter n) ++ tieSegment n.tie) := by
  have hbs : (overwriteBeamStatus n).beamStart = true := by
    simp [overwriteBeamStatus, hb]
  obtain ⟨seg6, hseg6⟩ : ∃ s, durationSegment (beamStatusAfter n).beamContinue
      n.pitch.step n.duration = some s := by
    rw [durationSegment]
    split
    · exact ⟨_, rfl⟩
    · rcases Option.isSome_iff_exists.mp hdur with ⟨d, hd⟩
      cases hbc : (beamStatusAfter n).beamContinue
      · simp only [Bool.false_eq_true, if_false, noteGlyph, hd, Option.map_some']
        exact ⟨_, rfl⟩
      · simp only [if_true]
        exact ⟨_, rfl⟩
  have hseg4 : accidentalSegment n.pitch = [accG] := by
    simp only [accidentalSegment, hacc]
    rw [if_pos hshow, haccG]
  have hempty : ¬(n.articulations.isEmpty = true) := by
    simpa [List.isEmpty_iff] using ha
  rw [noteToBraille, noteToBrailleSt]
  simp only [noteToBrailleStr, hseg6]
  rw [if_pos ⟨ht, hbs⟩, if_neg hempty, hseg4]
  simp only [articSegment, Option.getD_some, List.append_assoc]

/-- C6 witness: a concrete C4 quarter note with a beam-starting triplet,
articulations declared as [tenuto, staccato], and a shown sharp: the
output is triplet `⠆`, staccato `⠦`, tenuto `⠸⠦`, sharp `⠩`, octave `⠐`,
C-quarter `⠹` — triplet before articulations (staccato first despite being
declared second) before the accidental. -/
theorem C6_note_ordering_witness :
    noteToBraille
      { pitch := ⟨0, 4, some ⟨"sharp", none⟩⟩,
        duration := ⟨"quarter", 0, ["Triplet"], false⟩,
        articulations := ["tenuto".toList, "staccato".toList],
        fingering := none, tie := none,
        beginLongBracketSlur := none, endLongBracketSlur := none,
        beginLongDoubleSlur := none, endLongDoubleSlur := none,
        shortSlur := none, beamStart := some true, beamContinue := none,
        brailleEnglish := [] } true true =
      ['⠆', '⠦', '⠸', '⠦', '⠩', '⠐', '⠹'] :=
  C6_note_ordering _ true true ⟨"sharp", none⟩ '⠩' rfl rfl (by decide) rfl
    (by decide) (by decide) (by decide)

/-- C5: in the chord encoder, a non-base pitch at undirected generic
interval g ≥ 9 from the base pitch emits the interval glyph of
`g % 8 + 1`, preceded by an octave marker exactly when it is the first
non-base pitch (regardless of the relative distance) or — for a later
pitch — when the undirected generic interval from the immediately
preceding pitch is at least 8. -/
theorem C5_chord_wraparound (base prev cur : Pitch) (isFirst : Bool)
    (octG ig : Char)
    (hg : 9 ≤ genericUndirected base cur)
    (hoct : octaves cur.octave = some octG)
    (hint : intervals (genericUndirected base cur % 8 + 1) = some ig) :
    chordContrib base prev cur isFirst =
      .ok ((if isFirst = true ∨ 8 ≤ genericUndirected prev cur then [octG]
        else []) ++ [ig]) := by
  unfold chordContrib
  rw [if_pos (by omega : genericUndirected base cur > 8)]
  cases isFirst
  · by_cases hrel : 8 ≤ genericUndirected prev cur
    · simp [hoct, hint, hrel]
    · simp [hoct, hint, hrel]
  · simp [hoct, hint]

/-- C5 witness: base pitch G2, previous pitch E3, current pitch E4
(the last doctest chord of `chordToBraille`): the generic interval 13
folds to 6 (`⠴`) and the relative interval 8 from E3 forces the octave
mark `⠐`. -/
theorem C5_chord_wraparound_witness :
    chordContrib ⟨4, 2, none⟩ ⟨2, 3, none⟩ ⟨2, 4, none⟩ false =
      .ok ['⠐', '⠴'] :=
  C5_chord_wraparound ⟨4, 2, none⟩ ⟨2, 3, none⟩ ⟨2, 4, none⟩ false '⠐' '⠴'
    (by decide) (by decide) (by decide)

/-- C3: the grouping encoder is not total — the grouping
`[Dynamic('f'), NoClef()]` with `showClefSigns=True` makes
`transcribeNoteGrouping` raise an uncaught `IndexError`: the shown no-clef
appends the empty string, and the dot-3 block then evaluates
`trans[-1][0]` on it.  (The loop's `except` clause catches only
`AttributeError`.) -/
theorem C3_grouping_crash :
    transcribeNoteGrouping
      { elements := [.dynamicEl "f".toList, .clefEl .noClef],
        descendingChords := true, showClefSigns := true,
        upperFirstInNoteFingering := true } true = .error .indexError := by
  decide

/-- C8 counterexample: in the grouping `[Dynamic('f'), Note C4]` the
dynamic triggers the disambiguation check, the last emitted cell is `⠹`
(C quarter) whose top row has its right dot set — the claim therefore
demands a dot-3 inserted immediately before it — yet the source emits
`⠜⠋⠐⠹` with no dot-3: the source inspects the FIRST cell `⠐` of the last
emitted string for a left-column dot instead. -/
theorem C8_dotThree_counterexample :
    transcribeNoteGrouping
      { elements := [.dynamicEl "f".toList,
          .noteEl ⟨⟨0, 4, none⟩, ⟨"quarter", 0, [], false⟩, [], none, none,
            none, none, none, none, none, none, none, []⟩],
        descendingChords := true, showClefSigns := false,
        upperFirstInNoteFingering := true } true = .ok ['⠜', '⠋', '⠐', '⠹'] ∧
      ((binary_dots '⠹').getD []).headD (false, false) = (true, true) ∧
      (['⠜', '⠋', '⠐', '⠹'] : List Char) ≠ ['⠜', '⠋', '⠐', symbolsDot, '⠹'] := by
  refine ⟨by decide, by decide, by decide⟩

/-- C8 (amended): in a grouping step whose previous element was a shown
clef, or a dynamic — or a text expression not ending in a literal
period — with the current element neither a dynamic nor a text
expression, and whose current element emitted the string `s`, a dot-3
marker is inserted immediately before `s` exactly when some row of the
dot pattern of the FIRST cell of `s` has its left dot set. -/
theorem C8_dotThree_rule (g : BrailleElementGrouping) (st : GState)
    (prev el : BElement) (s : List Char) (c : Char) (rows : List (Bool × Bool))
    (pn : Option Pitch) (slo : Bool)
    (hprev : st.previousElement = some prev)
    (htrig :
      (g.showClefSigns = true ∧ isClefEl prev = true) ∨
      (isDynamicEl prev = true ∧ isDynamicEl el = false ∧
        isTextExpressionEl el = false) ∨
      (∃ content lastCh, prev = .textExpressionEl content ∧
        content.getLast? = some lastCh ∧ lastCh ≠ '.' ∧
        isDynamicEl el = false ∧ isTextExpressionEl el = false))
    (hdisp : dispatchElement g st el = .ok (st.trans ++ [s], pn, slo))
    (hc : s.head? = some c)
    (hrows : binary_dots c = some rows) :
    transcribeStep g st el =
      .ok ⟨st.trans ++ (if anyRowLeftDot rows then [[symbolsDot], s] else [s]),
        pn, some el, slo⟩ := by
  have hins : dotThreeInsert (st.trans ++ [s]) =
      .ok (st.trans ++ (if anyRowLeftDot rows then [[symbolsDot], s] else [s])) := by
    simp only [dotThreeInsert, List.getLast?_concat, hc, hrows]
    split
    · rw [List.dropLast_concat]
    · rfl
  simp only [transcribeStep, hdisp, hprev]
  rcases htrig with ⟨h1, h2⟩ | ⟨h1, h2, h3⟩ | ⟨content, lastCh, rfl, hl, hne, h2, h3⟩
  · simp [applyDotThree, h1, h2, hins]
  · simp [applyDotThree, h1, h2, h3, hins]
  · have p1 : isClefEl (BElement.textExpressionEl content) = false := rfl
    have p2 : isDynamicEl (BElement.textExpressionEl content) = false := rfl
    have p3 : isTextExpressionEl (BElement.textExpressionEl content) = true := rfl
    simp [applyDotThree, p1, p2, p3, h2, h3, hl, hne, hins]

/-- C8 witness: previous element Dynamic('f'), current element a final
barline (`⠣⠅`): the first cell `⠣` has left-column dots, so the dot-3
marker is inserted before the barline string. -/
theorem C8_dotThree_rule_witness :
    transcribeStep ⟨[], true, false, true⟩
      ⟨[['⠜', '⠋']], none, some (.dynamicEl "f".toList), true⟩
      (.barlineEl "final") =
      .ok ⟨[['⠜', '⠋'], ['⠄'], ['⠣', '⠅']], none,
        some (.barlineEl "final"), true⟩ :=
  C8_dotThree_rule ⟨[], true, false, true⟩
    ⟨[['⠜', '⠋']], none, some (.dynamicEl "f".toList), true⟩
    (.dynamicEl "f".toList) (.barlineEl "final") ['⠣', '⠅'] '⠣'
    [(true, false), (true, false), (false, true)] none true rfl
    (Or.inr (Or.inl ⟨rfl, rfl, rfl⟩)) (by decide) rfl (by decide)

/-- C2 witness: the amended round trip evaluated on the concrete cell `⠁`
and on the concrete two-line string `"⠁\n⠃"`. -/
theorem C2_codec_roundTrip_witness :
    (ascii_chars '⠁').bind (fun a => braille_chars (pyUpper a)) = some '⠁' ∧
      roundTripUnicode ['⠁', '\n', '⠃'] = .ok ['⠁', '\n', '⠃'] :=
  ⟨C2_codec_roundTrip.1 '⠁' (by decide),
   C2_codec_roundTrip.2 ['⠁', '\n', '⠃'] (by decide) (by decide)⟩

end M21
